import Mathlib

/-!
Verification development for the x/84 BBS session engine
(`x84/bbs/session.py`) and telnet negotiation (`x84/terminal.py`).

The Python code is shallowly embedded: Python values travelling over the
event channel become the inductive `PyVal`; the session's mutable
attributes become explicit record states threaded through the
functions; Python lists keep their orientation except for the script
stack, which we store top-first (the Python list keeps the top at the
end; `append`/`pop` there correspond to cons / head-removal here).
-/

set_option maxRecDepth 2000

namespace X84

/-- Embedding of the dynamically-typed Python values carried as event
payloads: strings, integers, booleans, tuples and `None`. -/
inductive PyVal where
  | pstr (s : String)
  | pint (n : Int)
  | pbool (b : Bool)
  | ptuple (xs : List PyVal)
  | pnone
deriving Repr

mutual

/-- Decidable equality on embedded Python values (nested inductive, so
the instance is written by hand). -/
def PyVal.decEq : (a b : PyVal) → Decidable (a = b)
  | .pstr x, .pstr y =>
    if h : x = y then .isTrue (by rw [h])
    else .isFalse (fun he => h (PyVal.pstr.inj he))
  | .pint x, .pint y =>
    if h : x = y then .isTrue (by rw [h])
    else .isFalse (fun he => h (PyVal.pint.inj he))
  | .pbool x, .pbool y =>
    if h : x = y then .isTrue (by rw [h])
    else .isFalse (fun he => h (PyVal.pbool.inj he))
  | .pnone, .pnone => .isTrue rfl
  | .ptuple xs, .ptuple ys =>
    match PyVal.decEqList xs ys with
    | .isTrue h => .isTrue (by rw [h])
    | .isFalse h => .isFalse (fun he => h (PyVal.ptuple.inj he))
  | .pstr _, .pint _ => .isFalse nofun
  | .pstr _, .pbool _ => .isFalse nofun
  | .pstr _, .ptuple _ => .isFalse nofun
  | .pstr _, .pnone => .isFalse nofun
  | .pint _, .pstr _ => .isFalse nofun
  | .pint _, .pbool _ => .isFalse nofun
  | .pint _, .ptuple _ => .isFalse nofun
  | .pint _, .pnone => .isFalse nofun
  | .pbool _, .pstr _ => .isFalse nofun
  | .pbool _, .pint _ => .isFalse nofun
  | .pbool _, .ptuple _ => .isFalse nofun
  | .pbool _, .pnone => .isFalse nofun
  | .ptuple _, .pstr _ => .isFalse nofun
  | .ptuple _, .pint _ => .isFalse nofun
  | .ptuple _, .pbool _ => .isFalse nofun
  | .ptuple _, .pnone => .isFalse nofun
  | .pnone, .pstr _ => .isFalse nofun
  | .pnone, .pint _ => .isFalse nofun
  | .pnone, .pbool _ => .isFalse nofun
  | .pnone, .ptuple _ => .isFalse nofun

/-- Decidable equality on lists of embedded Python values. -/
def PyVal.decEqList : (xs ys : List PyVal) → Decidable (xs = ys)
  | [], [] => .isTrue rfl
  | [], _ :: _ => .isFalse nofun
  | _ :: _, [] => .isFalse nofun
  | x :: xs, y :: ys =>
    match PyVal.decEq x y with
    | .isFalse h => .isFalse (fun he => by injection he with h1 h2; exact h h1)
    | .isTrue h1 =>
      match PyVal.decEqList xs ys with
      | .isTrue h2 => .isTrue (by rw [h1, h2])
      | .isFalse h => .isFalse (fun he => by injection he with _ h2; exact h h2)

end

instance : DecidableEq PyVal := PyVal.decEq

/-- `data[i]` on an embedded Python value. Indexing a tuple yields the
element; indexing a string yields the one-character substring. Other
shapes raise `TypeError` in Python; modelled as `none` (the claims only
exercise the defined shapes). -/
def pyIndex (v : PyVal) (i : Nat) : Option PyVal :=
  match v with
  | .ptuple xs => xs.get? i
  | .pstr s => (s.toList.get? i).map (fun c => .pstr (String.mk [c]))
  | _ => none

/-- Iteration (`for x in data`) over an embedded Python value; `none`
when the value is not iterable (Python `TypeError`). -/
def pyIter (v : PyVal) : Option (List PyVal) :=
  match v with
  | .ptuple xs => some xs
  | .pstr s => some (s.toList.map (fun c => .pstr (String.mk [c])))
  | _ => none

/-- A script-stack frame: `(script-name, positional-args...)`,
built by `Session.runscript` as `(script_name,) + args`. -/
structure Frame where
  name : String
  args : List PyVal
deriving Repr, DecidableEq

/-- Outcome of executing the top frame's script through
`Session.runscript`, as observed by `Session.run`'s handlers:
normal return, a `Goto` signal carrying a replacement frame,
a `Disconnected` signal, or any other exception. -/
inductive Outcome where
  | ok
  | goto (f : Frame)
  | disconnected
  | fail
deriving Repr, DecidableEq

/-- Client-visible actions of the run loop: `write` of unicode text
(terminal styling wrappers such as `red_reverse` are part of the
out-of-scope blessed library and are dropped), the fixed
`time.sleep(2)` pause, and `Session.close()`. -/
inductive Action where
  | write (s : String)
  | sleep (n : Nat)
  | close
deriving Repr, DecidableEq

/-- `Session.__error_recovery`: pop the faulted frame; when a frame
remains, announce `continue <resume>`; otherwise announce `stop`; both
notices end with ` after general exception in <fault>` and the fixed
2-second pause. Returns the reduced stack and the writes performed.
The stack is top-first. -/
def errorRecovery : List Frame → List Frame × List Action
  | [] => ([], [])
  | fault :: [] =>
    ([], [Action.write "\r\n\r\n",
          Action.write "stop",
          Action.write (" after general exception in " ++ fault.name ++ "\r\n"),
          Action.sleep 2])
  | fault :: next :: rest =>
    (next :: rest,
     [Action.write "\r\n\r\n",
      Action.write "continue",
      Action.write (" " ++ next.name),
      Action.write (" after general exception in " ++ fault.name ++ "\r\n"),
      Action.sleep 2])

/-- `Session.run`: loop while the stack is non-empty; pop the top frame
and execute it (`runscript` first re-pushes the frame and pops it again
only on normal return, so during execution and at any exception the
frame is still on the stack). `Goto` replaces the whole stack with the
signal's frame; `Disconnected` closes the session and returns; any
other exception runs error recovery (diagnostic logging and the
optional traceback echo are omitted). On an empty stack the loop ends
and the session is closed. `exec` abstracts script execution; `fuel`
bounds the number of iterations. -/
def runLoop (exec : Frame → Outcome) : Nat → List Frame → List Frame × List Action
  | 0, stack => (stack, [])
  | _ + 1, [] => ([], [Action.close])
  | fuel + 1, top :: rest =>
    match exec top with
    | .ok => runLoop exec fuel rest
    | .goto f => runLoop exec fuel [f]
    | .disconnected => (top :: rest, [Action.close])
    | .fail =>
      let r := errorRecovery (top :: rest)
      let r2 := runLoop exec fuel r.1
      (r2.1, r.2 ++ r2.2)

/-! ## Event buffering (`Session.buffer_event`, `Session._event_pop`,
`Session.read_events`) -/

/-- The session's event buffer `self._buffer`: a Python dict from
event name to a list of pending payloads, embedded as an association
list in insertion order. -/
abbrev Buffer : Type := List (String × List PyVal)

/-- `self._buffer[e]`, defaulting to the empty list for an absent key
(the code only reads a key after membership tests or initialization). -/
def bufGet : Buffer → String → List PyVal
  | [], _ => []
  | (k, w) :: rest, e => if k = e then w else bufGet rest e

/-- `e in self._buffer`. -/
def bufMem : Buffer → String → Bool
  | [], _ => false
  | (k, _) :: rest, e => if k = e then true else bufMem rest e

/-- `self._buffer[e] = v`: replace in place, or add a new key. -/
def bufSet : Buffer → String → List PyVal → Buffer
  | [], e, v => [(e, v)]
  | (k, w) :: rest, e, v =>
    if k = e then (k, v) :: rest else (k, w) :: bufSet rest e v

/-- The session attributes reached by the event-buffering and dispatch
code, plus observable effect logs: `sent` records `send_event` calls
(in order) and `chatRuns` records the synchronous
`runscript('chat', channel, sender)` invocations of the `page` handler
(the chat door's own behaviour is outside this model; its return value
only feeds logging). `channel` is the inbound end of the IPC pipe
(`self.iqueue`), head = next message. -/
structure SessState where
  buffer : Buffer := []
  scriptStack : List Frame := []
  mesg : Bool := true
  sid : String := ""
  handle : String := ""
  termCols : Int := 80
  termRows : Int := 24
  sent : List (String × PyVal) := []
  chatRuns : List (PyVal × PyVal) := []
  channel : List (String × PyVal) := []
deriving Repr, DecidableEq

/-- A freshly constructed session: empty event buffer. -/
def initialSession : SessState := {}

/-- `Session.send_event(event, data)`: serialize onto the IPC output
queue (the channel lock is a concurrency artefact with no data
effect). -/
def sendEvent (st : SessState) (event : String) (data : PyVal) : SessState :=
  {st with sent := st.sent ++ [(event, data)]}

/-- Result of a `buffer_event` call: a Python return value
(`some true` for the handled-inline `return True` paths, `none` for a
bare `return` or falling off the end), or an exception propagating out
(the `exception` event re-raises its payload; malformed payloads raise
`TypeError`/`ValueError`/`IndexError`, recorded here by name). -/
inductive BEOut where
  | ret (r : Option Bool)
  | raised (v : PyVal)
deriving Repr, DecidableEq

/-- The `info()` session snapshot, restricted to the attributes carried
by `SessState` (TERM, recorder filename, times etc. live outside the
modelled state). Only its identity as a payload matters to the claims. -/
def infoSnapshot (st : SessState) : PyVal :=
  .ptuple [.pstr st.sid, .pstr st.handle,
           .pstr ((st.scriptStack.head?.map Frame.name).getD ""),
           .pint st.termCols, .pint st.termRows]

/-- The `refresh` arm of `buffer_event` (also invoked by the `page`
handler for its synthetic `refresh` event): a `resize` payload first
updates the live terminal dimensions (resize payloads carry the
integer pair `(cols, rows)`, see `terminal.on_naws`); then only the
single most recent payload is retained. -/
def bufferRefresh (st : SessState) (data : PyVal) : SessState × BEOut :=
  match pyIndex data 0 with
  | none => (st, .raised (.pstr "TypeError"))
  | some v =>
    if v = .pstr "resize" then
      match data with
      | .ptuple [_, .ptuple [.pint c, .pint r]] =>
        ({st with termCols := c, termRows := r,
                  buffer := bufSet st.buffer "refresh" [data]}, .ret (some true))
      | _ => (st, .raised (.pstr "ValueError"))
    else
      ({st with buffer := bufSet st.buffer "refresh" [data]}, .ret (some true))

/-- `Session.buffer_input(data)`: each keystroke of the received chunk
is inserted at the front of the `input` buffer (the idle-timer update
is a wall-clock effect outside this model). -/
def bufferInput (st : SessState) (data : PyVal) : SessState × BEOut :=
  match pyIter data with
  | none => (st, .raised (.pstr "TypeError"))
  | some ks =>
    (ks.foldl (fun s k =>
      {s with buffer := bufSet s.buffer "input" (k :: bufGet s.buffer "input")}) st,
     .ret none)

/-- `Session.buffer_event(event, data)`, following the source's
dispatch order: `exception` re-raises; a `global` AYT is answered with
a `route` ACK; `page` (when not already in the `chat` script and pages
are accepted or the sender is the sysop sentinel `-1`) synchronously
runs the chat door and buffers a synthetic `refresh`; `info-req` is
answered with a `route` info-ack; then the name's buffer is created if
absent; `input` and `refresh` take their special arms; every other
payload is inserted at the front of the name's buffer, and the
`global` buffer is truncated to its 100 most recent entries once it
exceeds 150. -/
def bufferEvent (st : SessState) (event : String) (data : PyVal) : SessState × BEOut :=
  -- exceptions aren't buffered; they are thrown
  if event = "exception" then (st, .raised data)
  -- `event == 'global' and data[0] == 'AYT'` (indexing raises on non-sequences)
  else if event = "global" then
    match pyIndex data 0 with
    | none => (st, .raised (.pstr "TypeError"))
    | some v =>
      if v = .pstr "AYT" then
        match pyIndex data 1 with
        | none => (st, .raised (.pstr "IndexError"))
        | some replyTo =>
          (sendEvent st "route"
            (.ptuple [replyTo, .pstr "ACK", .pstr st.sid, .pstr st.handle]),
           .ret (some true))
      else bufferEventRest st event data
  else bufferEventRest st event data
where
  /-- The two-element tuple unpack `channel, sender = data`
  (`none` = Python raises). -/
  pageUnpack (d : PyVal) : Option (PyVal × PyVal) :=
    match d with
    | .ptuple [a, b] => some (a, b)
    | _ => none
  /-- Dispatch after the `exception` / `global`-AYT arms. -/
  bufferEventRest (st : SessState) (event : String) (data : PyVal) :
      SessState × BEOut :=
    if event = "page" then
      match st.scriptStack.head? with
      | none => (st, .raised (.pstr "IndexError"))  -- `self._script_stack[-1:][0]` on an empty stack
      | some top =>
        if top.name ≠ "chat" then
          match pageUnpack data with
          | some p =>
            if st.mesg ∨ p.2 = .pint (-1) then
              let st1 := {st with chatRuns := st.chatRuns ++ [(p.1, p.2)]}
              ((bufferRefresh st1 (.pstr "page-return")).1, .ret (some true))
            else bufferEventTail st event data
          | none => (st, .raised (.pstr "ValueError"))
        else bufferEventTail st event data
    else bufferEventTail st event data
  /-- Dispatch from the `info-req` arm onward. -/
  bufferEventTail (st : SessState) (event : String) (data : PyVal) :
      SessState × BEOut :=
    if event = "info-req" then
      match pyIndex data 0 with
      | none => (st, .raised (.pstr "TypeError"))
      | some sid0 =>
        (sendEvent st "route"
          (.ptuple [sid0, .pstr "info-ack", .pstr st.sid, infoSnapshot st]),
         .ret (some true))
    else
      -- init new unmanaged buffer for a first-seen name
      let st := if bufMem st.buffer event then st
                else {st with buffer := bufSet st.buffer event []}
      if event = "input" then bufferInput st data
      else if event = "refresh" then bufferRefresh st data
      else
        -- buffer all else: insert at the front
        let l := data :: bufGet st.buffer event
        let st := {st with buffer := bufSet st.buffer event l}
        -- keep only the 100 most recent once `global` exceeds 150
        if event = "global" ∧ (bufGet st.buffer "global").length > 150 then
          let g := (bufGet st.buffer "global").take 100
          ({st with buffer := bufSet st.buffer "global" g}, .ret none)
        else (st, .ret none)

/-- `Session._event_pop(event)`: `self._buffer[event].pop()` removes
and returns the last list element, i.e. the oldest buffered entry (a
missing or empty buffer raises in Python; modelled as `none`). -/
def eventPop (st : SessState) (event : String) : Option PyVal × SessState :=
  let l := bufGet st.buffer event
  match l.getLast? with
  | none => (none, st)
  | some d => (some d, {st with buffer := bufSet st.buffer event l.dropLast})

/-- Result of `Session.read_events`: the `(event, data)` pair (both
`none` on a miss), the session state, the remaining clock, and a
pending exception when `buffer_event` raised. -/
structure REOut where
  event : Option String
  data : Option PyVal
  st : SessState
  clock : List ℚ
  raised : Option PyVal := none
deriving Repr, DecidableEq

/-- One reading of `time.time()` from an explicit clock stream. -/
def readTime (clock : List ℚ) : ℚ × List ℚ :=
  match clock with
  | [] => (0, [])
  | t :: ts => (t, ts)

/-- The `timeleft` lambda of `read_events`: `float('inf')` (here
`none`) for a `None` timeout, the negative timeout itself unchanged,
or the remaining budget computed against a fresh `time.time()` reading
(consuming a clock tick only in that arm, as in the source). -/
def timeleftStep (timeout : Option ℚ) (stime : ℚ) (clock : List ℚ) :
    Option ℚ × List ℚ :=
  match timeout with
  | none => (none, clock)
  | some t =>
    if t < 0 then (some t, clock)
    else
      let p := readTime clock
      (some (t - (p.1 - stime)), p.2)

/-- The `while waitfor > 0` loop of `read_events`. A waiting channel
message is received and dispatched through `buffer_event`; a match
among `events` is popped and returned; the dead `elif timeout == -1`
arm is kept as in the source; otherwise `waitfor` is recomputed and
the loop continues. `poll` blocking on an empty channel with no
bounded timeout is modelled by fuel exhaustion. -/
def readEventsLoop (events : List String) (timeout : Option ℚ) (stime : ℚ) :
    Nat → Option ℚ → SessState → List ℚ → REOut
  | 0, _, st, clock => ⟨none, none, st, clock, none⟩
  | fuel + 1, waitfor, st, clock =>
    if (match waitfor with | none => true | some w => decide (0 < w)) then
      match st.channel with
      | (ev, d) :: chrest =>
        let r := bufferEvent {st with channel := chrest} ev d
        match r.2 with
        | .raised v => ⟨none, none, r.1, clock, some v⟩
        | .ret _ =>
          if ev ∈ events then
            let p := eventPop r.1 ev
            ⟨some ev, p.1, p.2, clock, none⟩
          else
            let q := timeleftStep timeout stime clock
            readEventsLoop events timeout stime fuel q.1 r.1 q.2
      | [] =>
        if timeout = some (-1) then ⟨none, none, st, clock, none⟩
        else
          let q := timeleftStep timeout stime clock
          readEventsLoop events timeout stime fuel q.1 st q.2
    else ⟨none, none, st, clock, none⟩

/-- `Session.read_events(events, timeout)`: first return any
already-buffered match (the first name in `events` order with a
non-empty buffer, popped); otherwise record `stime`, compute the
initial `waitfor` and enter the wait loop. -/
def readEvents (events : List String) (timeout : Option ℚ) (st : SessState)
    (clock : List ℚ) (fuel : Nat) : REOut :=
  match events.find? (fun e => bufMem st.buffer e && !(bufGet st.buffer e).isEmpty) with
  | some e =>
    let p := eventPop st e
    ⟨some e, p.1, p.2, clock, none⟩
  | none =>
    let p := readTime clock
    let q := timeleftStep timeout p.1 p.2
    readEventsLoop events timeout p.1 fuel q.1 st q.2

/-- A `global` payload that passes the AYT test into the generic
buffering path: indexable, with `data[0] != 'AYT'`. -/
def globalGenericPayload (d : PyVal) : Bool :=
  match pyIndex d 0 with
  | some v => decide (v ≠ .pstr "AYT")
  | none => false

/-- The conditions under which `buffer_event(event, data)` reaches the
final insert-at-front arm ("buffer all else"): not `exception`, not a
`global` AYT, not a `page` that is handled as instant chat, not
`info-req`, not `input`, not `refresh`. A `page` falls through when the
session is already inside the `chat` script, or when pages are refused
(`mesg` false) and the sender is not the sysop sentinel `-1`.
`pageFallthrough` is that last condition. -/
def pageFallthrough (st : SessState) (d : PyVal) : Bool :=
  match st.scriptStack.head? with
  | none => false
  | some top =>
    decide (top.name = "chat") ||
    (match bufferEvent.pageUnpack d with
     | some p => !st.mesg && decide (p.2 ≠ .pint (-1))
     | none => false)

def takesGenericPath (st : SessState) (event : String) (d : PyVal) : Bool :=
  decide (event ≠ "exception") && decide (event ≠ "info-req") &&
  decide (event ≠ "input") && decide (event ≠ "refresh") &&
  (decide (event ≠ "global") || globalGenericPayload d) &&
  (decide (event ≠ "page") || pageFallthrough st d)

/-- The `global` truncation applied after an insert: once the buffer
exceeds 150 entries, keep only the 100 most recent (front) ones. -/
def capGlobal (e : String) (l : List PyVal) : List PyVal :=
  if e = "global" ∧ l.length > 150 then l.take 100 else l

/-- Buffer a sequence of payloads under one event name, in order. -/
def bufferSame (st : SessState) (name : String) (ds : List PyVal) : SessState :=
  ds.foldl (fun s d => (bufferEvent s name d).1) st

/-- Dispatch a sequence of `(event, data)` messages through
`buffer_event`, in order. -/
def bufferEvents (st : SessState) (evs : List (String × PyVal)) : SessState :=
  evs.foldl (fun s ed => (bufferEvent s ed.1 ed.2).1) st

/-- Call `_event_pop(event)` `n` times, collecting the results. -/
def popN (st : SessState) (event : String) : Nat → List (Option PyVal) × SessState
  | 0 => ([], st)
  | k + 1 =>
    let p := eventPop st event
    let q := popN p.2 event k
    (p.1 :: q.1, q.2)

/-- 151 distinct non-AYT `global` payloads. -/
def c4ds : List PyVal := (List.range 151).map (fun i => .ptuple [.pstr "x", .pint (Int.ofNat i)])

/-- 151 distinct non-AYT `global` payloads, numbered 1..151 in send
order. -/
def c5ds : List PyVal := (List.range 151).map (fun i => .ptuple [.pstr "g", .pint (Int.ofNat (i + 1))])

/-! ## Node lock (`Session.node`, `Session.close`) -/

/-- The `'lock-%s/%d' % ('node', node)` acquire request sent by the
`node` property. -/
def acquireEvent (n : Nat) : String × PyVal :=
  ("lock-node/" ++ toString n, .ptuple [.pstr "acquire", .pnone])

/-- The `lock-node/<n>` release notification sent by `close()`. -/
def releaseEvent (n : Nat) : String × PyVal :=
  ("lock-node/" ++ toString n, .ptuple [.pstr "release", .pnone])

/-- The `for node in range(1, 64)` loop of the `node` property: send an
acquire request for each candidate in turn and block on the like-named
reply event (`reply` abstracts the lock authority answering the
blocking `read_event`); claim the first candidate whose reply `is
True`. Returns the claimed node, if any, and the acquire events sent,
in order. -/
def nodeAcquireAux (reply : Nat → PyVal) : List Nat → Option Nat × List (String × PyVal)
  | [] => (none, [])
  | n :: rest =>
    if reply n = .pbool true then (some n, [acquireEvent n])
    else
      let r := nodeAcquireAux reply rest
      (r.1, acquireEvent n :: r.2)

/-- `Session.node` on first read (when `self._node is None`). -/
def nodeProperty (reply : Nat → PyVal) : Option Nat × List (String × PyVal) :=
  nodeAcquireAux reply (List.range' 1 63)

/-- The channel effect of `Session.close()`: when a node was claimed,
send its release (the recorder teardown also performed by `close` is a
file-side effect, not a channel send). -/
def closeSends (node : Option Nat) : List (String × PyVal) :=
  match node with
  | some n => [releaseEvent n]
  | none => []

/-- A lock authority granting exactly node 3. -/
def c6reply (m : Nat) : PyVal := .pbool (decide (m = 3))

/-! ## Session recording (`Session._ttyrec_write`) -/

/-- `struct.pack('<I', v)`: the four little-endian bytes of an
unsigned 32-bit value. -/
def packLE32 (v : Nat) : List Nat :=
  [v % 256, v / 256 % 256, v / 65536 % 256, v / 16777216 % 256]

/-- `ucs.encode('utf8')` as a byte list. -/
def utf8Bytes (s : String) : List Nat :=
  s.toUTF8.data.toList.map (fun b => b.toNat)

/-- `sec = int(math.floor(timekey))`; the Python float
`timekey = self.duration` is idealised as an exact rational. -/
def ttyrecSec (elapsed : ℚ) : Int := Rat.floor elapsed

/-- `usec = int((timekey - sec) * 1e+6)` (durations are nonnegative,
so `int` truncation equals the floor). -/
def ttyrecUsec (elapsed : ℚ) : Int :=
  Rat.floor ((elapsed - ((ttyrecSec elapsed : Int) : ℚ)) * 1000000)

/-- The bytes of one `write_chunk` record:
`struct.pack('<I', tm_sec) + struct.pack('<I', tm_usec)`, then
`struct.pack('<I', textlen)`, then the UTF-8 text itself. -/
def chunkBytes (elapsed : ℚ) (ucs : String) : List Nat :=
  packLE32 (ttyrecSec elapsed).toNat ++ packLE32 (ttyrecUsec elapsed).toNat ++
    packLE32 (utf8Bytes ucs).length ++ utf8Bytes ucs

/-- The ttyrec file plus the session's compression bookkeeping
(`_ttyrec_sec`, `_ttyrec_usec`, `_ttyrec_len_text`); `flushed` is the
number of bytes pushed to stable storage by `flush()`. -/
structure TtyrecState where
  data : List Nat := []
  flushed : Nat := 0
  sec : Int := -1
  usec : Int := -1
  lenText : Nat := 0
deriving Repr, DecidableEq

/-- `Session._ttyrec_write(ucs)` with `self.duration = elapsed`:
append the timed chunk `bp1 + bp2 + text`, save the `(time, len)`
state, and flush. -/
def ttyrecWrite (st : TtyrecState) (elapsed : ℚ) (ucs : String) : TtyrecState :=
  let sec := ttyrecSec elapsed
  let usec := ttyrecUsec elapsed
  let text := utf8Bytes ucs
  let bp1 := packLE32 sec.toNat ++ packLE32 usec.toNat
  let bp2 := packLE32 text.length
  { data := st.data ++ bp1 ++ bp2 ++ text,
    flushed := (st.data ++ bp1 ++ bp2 ++ text).length,
    sec := sec, usec := usec, lenText := text.length }

/-- Little-endian uint32 reader (inverse of `packLE32`). -/
def unpackLE32 : List Nat → Option (Nat × List Nat)
  | b0 :: b1 :: b2 :: b3 :: rest =>
    some (b0 + 256 * b1 + 65536 * b2 + 16777216 * b3, rest)
  | _ => none

/-- Chunk reader: the three uint32 fields, then the announced number
of payload bytes. -/
def parseChunk (bs : List Nat) : Option ((Nat × Nat) × List Nat × List Nat) :=
  (unpackLE32 bs).bind fun p1 =>
    (unpackLE32 p1.2).bind fun p2 =>
      (unpackLE32 p2.2).bind fun p3 =>
        if p3.1 ≤ p3.2.length then
          some ((p1.1, p2.1), (p3.2.take p3.1, p3.2.drop p3.1))
        else none

/-! ## Window-size cursor-position fallback
(`ConnectTelnetTerminal._try_naws` with `WINSIZE_TRICK`) -/

/-- Try the `vt100` pattern `ESC \[ (\d+) ; (\d+) R` anchored at the
head of the input, returning the two captured digit groups. `\d+` is
greedy, and since each group is followed by a non-digit literal,
maximal munch coincides with the regex semantics. -/
def matchVT100At : List Char → Option (List Char × List Char)
  | '\x1b' :: '[' :: rest =>
    let h := rest.takeWhile Char.isDigit
    let r1 := rest.dropWhile Char.isDigit
    if h.isEmpty then none
    else
      match r1 with
      | ';' :: r2 =>
        let w := r2.takeWhile Char.isDigit
        let r3 := r2.dropWhile Char.isDigit
        if w.isEmpty then none
        else
          match r3 with
          | 'R' :: _ => some (h, w)
          | _ => none
      | _ => none
  | _ => none

/-- Try the `sun` pattern `ESC \[ 8 ; (\d+) ; (\d+) t` anchored at the
head of the input. -/
def matchSunAt : List Char → Option (List Char × List Char)
  | '\x1b' :: '[' :: '8' :: ';' :: rest =>
    let h := rest.takeWhile Char.isDigit
    let r1 := rest.dropWhile Char.isDigit
    if h.isEmpty then none
    else
      match r1 with
      | ';' :: r2 =>
        let w := r2.takeWhile Char.isDigit
        let r3 := r2.dropWhile Char.isDigit
        if w.isEmpty then none
        else
          match r3 with
          | 't' :: _ => some (h, w)
          | _ => none
      | _ => none
  | _ => none

/-- `pattern.search(inp)`: try the pattern at each successive start
position; the leftmost match wins. -/
def searchPat (matchAt : List Char → Option (List Char × List Char)) :
    List Char → Option (List Char × List Char)
  | [] => none
  | c :: rest =>
    match matchAt (c :: rest) with
    | some g => some g
    | none => searchPat matchAt rest

/-- `int(...)` on a captured digit group. -/
def digitsToNat (cs : List Char) : Nat :=
  cs.foldl (fun a c => a * 10 + (c.toNat - 48)) 0

/-- Outcome of the window-size fallback: client rows/columns, the TERM
value, and the raw LINES/COLUMNS environment strings. -/
structure NawsResult where
  rows : Nat
  columns : Nat
  term : String
  envLines : String
  envCols : String
deriving Repr, DecidableEq

/-- The cursor-position fallback of `_try_naws`: for each family of
`WINSIZE_TRICK` in order (`vt100` query `ESC[6n`, then `sun` query
`ESC[18t`), search that family's reply against its pattern; on the
first match set `rows`/`columns` from the captured `height`/`width`
groups, set TERM to the family name only when TERM is still
`'unknown'`, store the raw digit strings in LINES/COLUMNS and stop; if
neither family matches, default to 80×24. -/
def winsizeFallback (term0 : String) (inpVT inpSun : String) : NawsResult :=
  match searchPat matchVT100At inpVT.toList with
  | some g =>
    { rows := digitsToNat g.1, columns := digitsToNat g.2,
      term := if term0 = "unknown" then "vt100" else term0,
      envLines := String.mk g.1, envCols := String.mk g.2 }
  | none =>
    match searchPat matchSunAt inpSun.toList with
    | some g =>
      { rows := digitsToNat g.1, columns := digitsToNat g.2,
        term := if term0 = "unknown" then "sun" else term0,
        envLines := String.mk g.1, envCols := String.mk g.2 }
    | none =>
      { rows := 24, columns := 80, term := term0,
        envLines := "24", envCols := "80" }

/-! ## Output encoding (`Session.write`, `Session.TRIM_CP437`) -/

/-- `Session.TRIM_CP437 = bytes(chr(14) + chr(15))`: the shift-out and
shift-in control glyphs stripped outright in cp437 mode. -/
def TRIM_CP437 : List Char := [Char.ofNat 14, Char.ofNat 15]

/-- `ucs.encode('iso8859-1', 'replace')` for one character: the code
point when it fits one byte, else the replacement byte `?` (63). -/
def isoByte (c : Char) : Nat :=
  if c.toNat ≤ 255 then c.toNat else 63

/-- One glyph of the cp437 re-encoding comprehension in
`Session.write`: a glyph present in the CP437 table and not one of the
trimmed controls becomes the character whose code point is its table
index (`unichr(CP437.index(glyph))`); anything else falls back to its
iso8859-1 byte with bytes 14 and 15 deleted
(`text[idx].translate(None, self.TRIM_CP437)`). -/
def cp437Glyph (table : List Char) (c : Char) : List Char :=
  if c ∈ table ∧ c ∉ TRIM_CP437 then [Char.ofNat (table.indexOf c)]
  else if isoByte c = 14 ∨ isoByte c = 15 then []
  else [Char.ofNat (isoByte c)]

/-- The full `u''.join([...])` transcoding of `Session.write`. The
CP437 glyph table itself lives in `x84/bbs/cp437.py`, which is not in
this source snapshot, so the table is a parameter here; the real table
has 256 glyphs, one per byte. -/
def cp437Transcode (table : List Char) (s : List Char) : List Char :=
  (s.map (cp437Glyph table)).flatten

/-- The byte stream the out-of-scope terminal writer produces from the
transcoded text under `iso8859-1`
(`self.terminal.stream.write(ucs, encoding)`). -/
def isoEncode (s : List Char) : List Nat := s.map isoByte

/-- Rendering received bytes back through the glyph table: byte `b`
displays as the table's glyph at index `b`. -/
def cp437Decode (table : List Char) (bs : List Nat) : List Char :=
  bs.filterMap (fun b => table.get? b)

/-- The write-path state of a session: output mode, the terminal
stream log of `(text, encoding)` writes, record_tty enablement, the
open recorder (if any), and the terminal dimensions used by the
recording header. -/
structure WState where
  encoding : String := "utf8"
  streamOut : List (List Char × String) := []
  recordTty : Bool := false
  ttyrec : Option TtyrecState := none
  termHeight : Int := 24
  termWidth : Int := 80
deriving Repr, DecidableEq

/-- `Session.start_recording` followed by `_ttyrec_write_header` (the
file naming dance is filesystem-bound and out of scope): a fresh
recorder whose first two chunks are the window-size escape
`ESC[8;<height>;<width>t` and the UTF-8 mode escape `ESC%G`. -/
def startRecording (elapsed : ℚ) (h w : Int) : TtyrecState :=
  let st1 := ttyrecWrite {} elapsed
    ("\x1b[8;" ++ toString h ++ ";" ++ toString w ++ "t")
  ttyrecWrite st1 elapsed "\x1b%G"

/-- `Session.write(ucs)`: empty text returns immediately; in `cp437`
mode the text is transcoded and the stream write carries `iso8859-1`
(otherwise the session encoding); when recording is enabled a recorder
is started lazily and the (re-encoded) text is appended as a chunk. -/
def sessionWrite (table : List Char) (st : WState) (elapsed : ℚ)
    (ucs : List Char) : WState :=
  if ucs.length = 0 then st
  else
    let p : List Char × String :=
      if st.encoding = "cp437" then (cp437Transcode table ucs, "iso8859-1")
      else (ucs, st.encoding)
    let st1 := {st with streamOut := st.streamOut ++ [p]}
    if st1.recordTty then
      let rec0 := match st1.ttyrec with
        | some r => r
        | none => startRecording elapsed st1.termHeight st1.termWidth
      {st1 with ttyrec := some (ttyrecWrite rec0 elapsed (String.mk p.1))}
    else st1

/-- The writes of the `stop` notice emitted when the faulted frame was
the only one on the stack. -/
def stopNotice (fault : Frame) : List Action :=
  [Action.write "\r\n\r\n",
   Action.write "stop",
   Action.write (" after general exception in " ++ fault.name ++ "\r\n"),
   Action.sleep 2]

/-- The writes of the `continue` notice emitted when a frame remains
beneath the faulted one. -/
def continueNotice (resume fault : Frame) : List Action :=
  [Action.write "\r\n\r\n",
   Action.write "continue",
   Action.write (" " ++ resume.name),
   Action.write (" after general exception in " ++ fault.name ++ "\r\n"),
   Action.sleep 2]

/-- C1: when the top script raises a generic failure, with stack
`[A, B]` (B on top, executing) recovery leaves stack `[A]` and writes a
`continue` notice naming `A`; with stack `[B]` alone recovery leaves
the empty stack, writes a `stop` notice, and the run loop then closes
the session. Stacks are written top-first. -/
theorem run_generic_failure_recovery (A B : Frame) (exec : Frame → Outcome)
    (hB : exec B = Outcome.fail) :
    errorRecovery [B, A] = ([A], continueNotice A B) ∧
    errorRecovery [B] = ([], stopNotice B) ∧
    (∀ fuel, runLoop exec (fuel + 1) [B, A] =
      ((runLoop exec fuel [A]).1, continueNotice A B ++ (runLoop exec fuel [A]).2)) ∧
    (∀ fuel, runLoop exec (fuel + 2) [B] = ([], stopNotice B ++ [Action.close])) := by
  refine ⟨rfl, rfl, ?_, ?_⟩
  · intro fuel
    simp [runLoop, hB, errorRecovery, continueNotice]
  · intro fuel
    simp [runLoop, hB, errorRecovery, stopNotice]

/-- Witness for C1 at concrete frames `A`, `B` and a script that always
fails. -/
theorem run_generic_failure_recovery_witness :
    (fun _ : Frame => Outcome.fail) ⟨"B", []⟩ = Outcome.fail ∧
    errorRecovery [⟨"B", []⟩, ⟨"A", []⟩] = ([⟨"A", []⟩], continueNotice ⟨"A", []⟩ ⟨"B", []⟩) ∧
    runLoop (fun _ => Outcome.fail) 2 [⟨"B", []⟩] =
      ([], stopNotice ⟨"B", []⟩ ++ [Action.close]) :=
  ⟨rfl,
   (run_generic_failure_recovery ⟨"A", []⟩ ⟨"B", []⟩ (fun _ => Outcome.fail) rfl).1,
   (run_generic_failure_recovery ⟨"A", []⟩ ⟨"B", []⟩ (fun _ => Outcome.fail) rfl).2.2.2 0⟩

/-- C2: a `Goto` signal carrying frame `f`, raised while any top frame
executes over any stack, makes the run loop replace the entire stack
with `[f]` and keep looping; in particular from stack `[A]` a `Goto`
to `f` yields stack `[f]`, not `[A, f]`. -/
theorem run_goto_replaces_stack (exec : Frame → Outcome) :
    (∀ top rest f fuel, exec top = Outcome.goto f →
      runLoop exec (fuel + 1) (top :: rest) = runLoop exec fuel [f]) ∧
    (∀ A f, exec A = Outcome.goto f → runLoop exec 1 [A] = ([f], [])) := by
  constructor
  · intro top rest f fuel h
    simp [runLoop, h]
  · intro A f h
    simp [runLoop, h]

/-- Witness for C2: from stack `[A]`, a `Goto` to frame `(B, x)` leaves
exactly the stack `[(B, x)]`. -/
theorem run_goto_replaces_stack_witness :
    (fun _ : Frame => Outcome.goto ⟨"B", [PyVal.pstr "x"]⟩) ⟨"A", []⟩ =
      Outcome.goto ⟨"B", [PyVal.pstr "x"]⟩ ∧
    runLoop (fun _ => Outcome.goto ⟨"B", [PyVal.pstr "x"]⟩) 1 [⟨"A", []⟩] =
      ([⟨"B", [PyVal.pstr "x"]⟩], []) :=
  ⟨rfl,
   (run_goto_replaces_stack (fun _ => Outcome.goto ⟨"B", [PyVal.pstr "x"]⟩)).2
     ⟨"A", []⟩ ⟨"B", [PyVal.pstr "x"]⟩ rfl⟩

/-! ### Buffer-map lemmas -/

theorem bufGet_bufSet_same (b : Buffer) (e : String) (v : List PyVal) :
    bufGet (bufSet b e v) e = v := by
  induction b with
  | nil => simp [bufSet, bufGet]
  | cons kv rest ih =>
    obtain ⟨k, w⟩ := kv
    by_cases h : k = e
    · simp [bufSet, bufGet, h]
    · simp [bufSet, bufGet, h, ih]

theorem bufGet_bufSet_ne (b : Buffer) (e f : String) (v : List PyVal)
    (h : e ≠ f) : bufGet (bufSet b e v) f = bufGet b f := by
  induction b with
  | nil => simp [bufSet, bufGet, h]
  | cons kv rest ih =>
    obtain ⟨k, w⟩ := kv
    by_cases hk : k = e
    · subst hk
      simp [bufSet, bufGet, h]
    · simp [bufSet, bufGet, hk, ih]

theorem bufSet_bufSet_same (b : Buffer) (e : String) (v w : List PyVal) :
    bufSet (bufSet b e v) e w = bufSet b e w := by
  induction b with
  | nil => simp [bufSet]
  | cons kv rest ih =>
    obtain ⟨k, u⟩ := kv
    by_cases h : k = e
    · simp [bufSet, h]
    · simp [bufSet, h, ih]

theorem bufGet_eq_nil_of_not_mem (b : Buffer) (e : String)
    (h : bufMem b e = false) : bufGet b e = [] := by
  induction b with
  | nil => simp [bufGet]
  | cons kv rest ih =>
    obtain ⟨k, w⟩ := kv
    by_cases hk : k = e
    · simp [bufMem, hk] at h
    · simp [bufMem, hk] at h
      simp [bufGet, hk, ih h]

/-! ### C3 -/

/-- A session with nothing buffered and one message waiting on the
inbound channel. -/
def c3Session : SessState := {channel := [("e", .pint 7)]}

/-- C3 (failing-input evaluation): with no buffered entry for `"e"`,
a message `("e", 7)` waiting on the channel, and timeout `-1`,
`read_events` returns `(None, None)` with the channel untouched: the
initial `waitfor` equals the negative timeout, so the `while
waitfor > 0` loop — the only place the channel is polled — never runs,
and no non-blocking poll happens at all. -/
theorem read_events_nonblocking_never_polls :
    readEvents ["e"] (some (-1)) c3Session [0] 5 =
      ⟨none, none, c3Session, [], none⟩ := by
  decide

/-! ### The generic buffering arm (C4, C5) -/

theorem bufferEventTail_generic (st : SessState) (e : String) (d : PyVal)
    (hinfo : e ≠ "info-req") (hinp : e ≠ "input") (href : e ≠ "refresh") :
    bufferEvent.bufferEventTail st e d =
      ({st with buffer := bufSet st.buffer e (capGlobal e (d :: bufGet st.buffer e))},
       BEOut.ret none) := by
  unfold bufferEvent.bufferEventTail
  rw [if_neg hinfo]
  by_cases hm : bufMem st.buffer e
  · simp only [hm, if_true]
    rw [if_neg hinp, if_neg href]
    by_cases hg : e = "global"
    · subst hg
      by_cases hlen : 150 < (bufGet st.buffer "global").length + 1
      · simp [capGlobal, bufGet_bufSet_same, bufSet_bufSet_same, hlen]
      · simp [capGlobal, bufGet_bufSet_same, hlen]
    · simp [capGlobal, bufGet_bufSet_same, hg]
  · simp only [hm, Bool.false_eq_true, if_false]
    rw [if_neg hinp, if_neg href]
    have hnil : bufGet st.buffer e = [] := bufGet_eq_nil_of_not_mem _ _ (by simpa using hm)
    by_cases hg : e = "global"
    · subst hg
      simp [capGlobal, bufGet_bufSet_same, bufSet_bufSet_same, hnil]
    · simp [capGlobal, bufGet_bufSet_same, bufSet_bufSet_same, hg, hnil]

theorem bufferEventRest_generic (st : SessState) (e : String) (d : PyVal)
    (hinfo : e ≠ "info-req") (hinp : e ≠ "input") (href : e ≠ "refresh")
    (hpage : e = "page" → pageFallthrough st d = true) :
    bufferEvent.bufferEventRest st e d =
      ({st with buffer := bufSet st.buffer e (capGlobal e (d :: bufGet st.buffer e))},
       BEOut.ret none) := by
  unfold bufferEvent.bufferEventRest
  by_cases hp : e = "page"
  · subst hp
    have hf := hpage rfl
    unfold pageFallthrough at hf
    rw [if_pos rfl]
    split
    · rename_i heq
      rw [heq] at hf
      simp at hf
    · rename_i top heq
      rw [heq] at hf
      simp only [Bool.or_eq_true, decide_eq_true_eq] at hf
      by_cases hchat : top.name = "chat"
      · rw [if_neg (by simp [hchat])]
        exact bufferEventTail_generic st "page" d hinfo hinp href
      · rw [if_pos (by simp [hchat])]
        rcases hf with hf | hf
        · exact absurd hf hchat
        · split
          · rename_i p hu
            rw [hu] at hf
            simp only [Bool.and_eq_true, Bool.not_eq_true', decide_eq_true_eq] at hf
            rw [if_neg (by simp [hf.1, hf.2])]
            exact bufferEventTail_generic st "page" _ hinfo hinp href
          · rename_i hu
            rw [hu] at hf
            simp at hf
  · rw [if_neg hp]
    exact bufferEventTail_generic st e d hinfo hinp href

theorem bufferEvent_generic (st : SessState) (e : String) (d : PyVal)
    (h : takesGenericPath st e d = true) :
    bufferEvent st e d =
      ({st with buffer := bufSet st.buffer e (capGlobal e (d :: bufGet st.buffer e))},
       BEOut.ret none) := by
  unfold takesGenericPath at h
  simp only [Bool.and_eq_true, Bool.or_eq_true, decide_eq_true_eq] at h
  obtain ⟨⟨⟨⟨⟨hexc, hinfo⟩, hinp⟩, href⟩, hglob⟩, hpage⟩ := h
  unfold bufferEvent
  rw [if_neg hexc]
  by_cases hg : e = "global"
  · subst hg
    rcases hglob with hglob | hglob
    · exact absurd rfl hglob
    · unfold globalGenericPayload at hglob
      rw [if_pos rfl]
      split
      · rename_i hpi
        rw [hpi] at hglob
        simp at hglob
      · rename_i v hpi
        rw [hpi] at hglob
        simp only [decide_eq_true_eq] at hglob
        rw [if_neg hglob]
        exact bufferEventRest_generic st "global" d hinfo hinp href
          (fun hc => absurd hc (by simp))
  · rw [if_neg hg]
    exact bufferEventRest_generic st e d hinfo hinp href
      (fun hc => by
        rcases hpage with hpage | hpage
        · exact absurd hc hpage
        · exact hpage)

theorem takesGenericPath_congr (st st2 : SessState) (name : String) (d : PyVal)
    (h1 : st2.scriptStack = st.scriptStack) (h2 : st2.mesg = st.mesg) :
    takesGenericPath st2 name d = takesGenericPath st name d := by
  unfold takesGenericPath pageFallthrough
  rw [h1, h2]

theorem takesGenericPath_global (st : SessState) (d : PyVal)
    (h : globalGenericPayload d = true) :
    takesGenericPath st "global" d = true := by
  unfold takesGenericPath
  rw [h]
  rfl

/-- Folding a list of generic-path payloads under one name changes only
the buffer, prepending the payloads (newest first) to that name's
entry; no `global` truncation fires while the final length stays within
150. -/
theorem bufferSame_generic (name : String) :
    ∀ (ds : List PyVal) (st : SessState),
      (∀ d ∈ ds, takesGenericPath st name d = true) →
      (name = "global" → (bufGet st.buffer name).length + ds.length ≤ 150) →
      ∃ b2, bufferSame st name ds = {st with buffer := b2} ∧
        bufGet b2 name = ds.reverse ++ bufGet st.buffer name
  | [], st, _, _ => ⟨st.buffer, rfl, by simp⟩
  | d :: tl, st, hgen, hlen => by
    have hd := hgen d (by simp)
    have hstep := bufferEvent_generic st name d hd
    have hcap : capGlobal name (d :: bufGet st.buffer name) = d :: bufGet st.buffer name := by
      unfold capGlobal
      by_cases hg : name = "global"
      · subst hg
        have hn := hlen rfl
        simp only [List.length_cons] at hn
        rw [if_neg]
        intro hcon
        obtain ⟨-, hbig⟩ := hcon
        simp only [List.length_cons, gt_iff_lt] at hbig
        omega
      · rw [if_neg]
        simp [hg]
    rw [hcap] at hstep
    have h1 : bufferSame st name (d :: tl) =
        bufferSame {st with buffer := bufSet st.buffer name (d :: bufGet st.buffer name)} name tl := by
      unfold bufferSame
      simp only [List.foldl_cons]
      rw [hstep]
    have hgen2 : ∀ d2 ∈ tl,
        takesGenericPath {st with buffer := bufSet st.buffer name (d :: bufGet st.buffer name)} name d2 = true := by
      intro d2 hd2
      have hc := takesGenericPath_congr st
        {st with buffer := bufSet st.buffer name (d :: bufGet st.buffer name)} name d2 rfl rfl
      rw [hc]
      exact hgen d2 (by simp [hd2])
    have hlen2 : name = "global" →
        (bufGet (bufSet st.buffer name (d :: bufGet st.buffer name)) name).length + tl.length ≤ 150 := by
      intro hg
      rw [bufGet_bufSet_same]
      have := hlen hg
      simp only [List.length_cons] at *
      omega
    obtain ⟨b2, e1, e2⟩ := bufferSame_generic name tl
      {st with buffer := bufSet st.buffer name (d :: bufGet st.buffer name)} hgen2 hlen2
    refine ⟨b2, ?_, ?_⟩
    · rw [h1, e1]
    · rw [e2, bufGet_bufSet_same]
      simp

/-- Popping a name's buffer as many times as it has entries yields the
entries oldest-first (the reverse of the stored, newest-first list). -/
theorem popN_drain (name : String) :
    ∀ (n : Nat) (st : SessState), (bufGet st.buffer name).length = n →
      (popN st name n).1 = (bufGet st.buffer name).reverse.map some
  | 0, st, h => by
    rw [List.length_eq_zero] at h
    rw [h]
    rfl
  | n + 1, st, h => by
    rcases List.eq_nil_or_concat (bufGet st.buffer name) with hnil | ⟨L, b, hlb⟩
    · rw [hnil] at h
      simp at h
    · have hpop : eventPop st name = (some b, {st with buffer := bufSet st.buffer name L}) := by
        unfold eventPop
        rw [hlb]
        simp [List.getLast?_concat, List.dropLast_concat]
      have hlen2 : (bufGet ({st with buffer := bufSet st.buffer name L} : SessState).buffer name).length = n := by
        show (bufGet (bufSet st.buffer name L) name).length = n
        rw [bufGet_bufSet_same]
        rw [hlb] at h
        simp at h
        omega
      have ih := popN_drain name n {st with buffer := bufSet st.buffer name L} hlen2
      show ((eventPop st name).1 :: (popN (eventPop st name).2 name n).1, _).1 = _
      rw [hpop]
      simp only []
      rw [ih]
      show some b :: (bufGet (bufSet st.buffer name L) name).reverse.map some = _
      rw [bufGet_bufSet_same, hlb]
      simp

theorem foldInput_global (ks : List PyVal) : ∀ st : SessState,
    bufGet ((ks.foldl (fun s k =>
      {s with buffer := bufSet s.buffer "input" (k :: bufGet s.buffer "input")}) st)).buffer "global" =
      bufGet st.buffer "global" := by
  induction ks with
  | nil => intro st; rfl
  | cons k ktl ih =>
    intro st
    simp only [List.foldl_cons]
    rw [ih]
    exact bufGet_bufSet_ne _ _ _ _ (by decide)

theorem bufferInput_global (st : SessState) (d : PyVal) :
    bufGet (bufferInput st d).1.buffer "global" = bufGet st.buffer "global" := by
  unfold bufferInput
  split
  · rfl
  · rename_i ks _
    exact foldInput_global ks st

theorem bufferRefresh_global (st : SessState) (d : PyVal) :
    bufGet (bufferRefresh st d).1.buffer "global" = bufGet st.buffer "global" := by
  unfold bufferRefresh
  split
  · rfl
  · split
    · split
      · exact bufGet_bufSet_ne _ _ _ _ (by decide)
      · rfl
    · exact bufGet_bufSet_ne _ _ _ _ (by decide)

theorem bufferEventTail_global_le (st : SessState) (e : String) (d : PyVal)
    (h : (bufGet st.buffer "global").length ≤ 150) :
    (bufGet (bufferEvent.bufferEventTail st e d).1.buffer "global").length ≤ 150 := by
  by_cases hinfo : e = "info-req"
  · subst hinfo
    unfold bufferEvent.bufferEventTail
    rw [if_pos rfl]
    split
    · exact h
    · exact h
  by_cases hinp : e = "input"
  · subst hinp
    unfold bufferEvent.bufferEventTail
    rw [if_neg (by decide), if_pos rfl]
    by_cases hm : bufMem st.buffer "input"
    · simp only [hm, if_true]
      rw [bufferInput_global]
      exact h
    · simp only [hm, Bool.false_eq_true, if_false]
      rw [bufferInput_global]
      show (bufGet (bufSet st.buffer "input" []) "global").length ≤ 150
      rw [bufGet_bufSet_ne _ _ _ _ (by decide)]
      exact h
  by_cases href : e = "refresh"
  · subst href
    unfold bufferEvent.bufferEventTail
    rw [if_neg (by decide), if_neg (by decide), if_pos rfl]
    by_cases hm : bufMem st.buffer "refresh"
    · simp only [hm, if_true]
      rw [bufferRefresh_global]
      exact h
    · simp only [hm, Bool.false_eq_true, if_false]
      rw [bufferRefresh_global]
      show (bufGet (bufSet st.buffer "refresh" []) "global").length ≤ 150
      rw [bufGet_bufSet_ne _ _ _ _ (by decide)]
      exact h
  · rw [bufferEventTail_generic st e d hinfo hinp href]
    show (bufGet (bufSet st.buffer e (capGlobal e (d :: bufGet st.buffer e))) "global").length ≤ 150
    by_cases hg : e = "global"
    · subst hg
      rw [bufGet_bufSet_same]
      unfold capGlobal
      split
      · simp only [List.length_take]
        omega
      · rename_i hc
        simp only [not_and, not_lt, gt_iff_lt] at hc
        exact hc trivial
    · rw [bufGet_bufSet_ne _ _ _ _ hg]
      exact h

theorem bufferEventRest_global_le (st : SessState) (e : String) (d : PyVal)
    (h : (bufGet st.buffer "global").length ≤ 150) :
    (bufGet (bufferEvent.bufferEventRest st e d).1.buffer "global").length ≤ 150 := by
  unfold bufferEvent.bufferEventRest
  by_cases hp : e = "page"
  · subst hp
    rw [if_pos rfl]
    split
    · exact h
    · rename_i top heq
      by_cases hchat : top.name = "chat"
      · rw [if_neg (by simp [hchat])]
        exact bufferEventTail_global_le st "page" d h
      · rw [if_pos (by simp [hchat])]
        split
        · rename_i p hu
          split
          · show (bufGet (bufferRefresh _ (PyVal.pstr "page-return")).1.buffer "global").length ≤ 150
            rw [bufferRefresh_global]
            exact h
          · exact bufferEventTail_global_le st "page" d h
        · exact h
  · rw [if_neg hp]
    exact bufferEventTail_global_le st e d h

/-- Invariant step: no single `buffer_event` call can leave more than
150 entries in the `global` buffer. -/
theorem bufferEvent_global_le (st : SessState) (e : String) (d : PyVal)
    (h : (bufGet st.buffer "global").length ≤ 150) :
    (bufGet (bufferEvent st e d).1.buffer "global").length ≤ 150 := by
  unfold bufferEvent
  by_cases hexc : e = "exception"
  · rw [if_pos hexc]
    exact h
  · rw [if_neg hexc]
    by_cases hg : e = "global"
    · rw [if_pos hg]
      split
      · exact h
      · rename_i v hpi
        by_cases hv : v = PyVal.pstr "AYT"
        · rw [if_pos hv]
          split
          · exact h
          · exact h
        · rw [if_neg hv]
          exact bufferEventRest_global_le st e d h
    · rw [if_neg hg]
      exact bufferEventRest_global_le st e d h

theorem bufferEvents_global_le (evs : List (String × PyVal)) :
    ∀ st : SessState, (bufGet st.buffer "global").length ≤ 150 →
      ∀ k, (bufGet (bufferEvents st (evs.take k)).buffer "global").length ≤ 150 := by
  induction evs with
  | nil =>
    intro st h k
    simpa [bufferEvents] using h
  | cons ed tl ih =>
    intro st h k
    cases k with
    | zero => simpa [bufferEvents] using h
    | succ k =>
      simp only [List.take_succ_cons, bufferEvents, List.foldl_cons]
      exact ih ((bufferEvent st ed.1 ed.2).1) (bufferEvent_global_le st ed.1 ed.2 h) k

/-- Buffering 151 generic-path `global` payloads from a fresh session:
the cap fires exactly once, at the 151st insert, leaving the 100 most
recent payloads (newest first). -/
theorem bufferSame_global_151 (ds : List PyVal) (h151 : ds.length = 151)
    (hds : ∀ d ∈ ds, globalGenericPayload d = true) :
    bufGet (bufferSame initialSession "global" ds).buffer "global" = ds.reverse.take 100 := by
  rcases List.eq_nil_or_concat ds with hnil | ⟨front, last, hsplit⟩
  · rw [hnil] at h151
    simp at h151
  · subst hsplit
    simp only [List.concat_eq_append] at h151 hds ⊢
    have hfl : front.length = 150 := by
      simp only [List.length_append, List.length_singleton] at h151
      omega
    have hgen : ∀ d ∈ front, takesGenericPath initialSession "global" d = true := by
      intro d hd
      exact takesGenericPath_global initialSession d (hds d (by simp [hd]))
    obtain ⟨b2, e1, e2⟩ := bufferSame_generic "global" front initialSession hgen
      (by
        intro _
        show (bufGet initialSession.buffer "global").length + front.length ≤ 150
        rw [hfl]
        decide)
    have hstep : bufferSame initialSession "global" (front ++ [last]) =
        (bufferEvent (bufferSame initialSession "global" front) "global" last).1 := by
      unfold bufferSame
      rw [List.foldl_append]
      rfl
    rw [hstep, e1]
    have hold : bufGet b2 "global" = front.reverse := by
      rw [e2]
      show front.reverse ++ bufGet [] "global" = front.reverse
      simp [bufGet]
    have hlast : takesGenericPath ({initialSession with buffer := b2} : SessState) "global" last = true :=
      takesGenericPath_global _ _ (hds last (by simp))
    rw [bufferEvent_generic _ _ _ hlast]
    show bufGet (bufSet b2 "global" (capGlobal "global" (last :: bufGet b2 "global"))) "global" = _
    rw [bufGet_bufSet_same, hold]
    unfold capGlobal
    rw [if_pos (by simp [hfl])]
    simp

theorem c4ds_global : ∀ d ∈ c4ds, globalGenericPayload d = true := by
  intro d hd
  simp only [c4ds, List.mem_map] at hd
  obtain ⟨i, -, rfl⟩ := hd
  rfl

theorem c5ds_global : ∀ d ∈ c5ds, globalGenericPayload d = true := by
  intro d hd
  simp only [c5ds, List.mem_map] at hd
  obtain ⟨i, -, rfl⟩ := hd
  rfl

/-- C4: throughout every sequence of `buffer_event` calls from a fresh
session the `global` buffer holds at most 150 entries, and buffering
151 non-AYT `global` payloads leaves exactly the 100 most recently
sent ones (newest first). -/
theorem global_buffer_cap (evs : List (String × PyVal)) (k : Nat)
    (ds : List PyVal) (h151 : ds.length = 151)
    (hds : ∀ d ∈ ds, globalGenericPayload d = true) :
    (bufGet (bufferEvents initialSession (evs.take k)).buffer "global").length ≤ 150 ∧
    bufGet (bufferSame initialSession "global" ds).buffer "global" = ds.reverse.take 100 ∧
    (ds.reverse.take 100).length = 100 := by
  refine ⟨bufferEvents_global_le evs initialSession (by decide) k,
    bufferSame_global_151 ds h151 hds, ?_⟩
  rw [List.length_take, List.length_reverse, h151]
  decide

/-- Witness for C4 at the concrete payload list `c4ds`. -/
theorem global_buffer_cap_witness :
    c4ds.length = 151 ∧ (∀ d ∈ c4ds, globalGenericPayload d = true) ∧
    bufGet (bufferSame initialSession "global" c4ds).buffer "global" = c4ds.reverse.take 100 :=
  ⟨by unfold c4ds; rw [List.length_map, List.length_range], c4ds_global,
   (global_buffer_cap [] 0 c4ds
     (by unfold c4ds; rw [List.length_map, List.length_range]) c4ds_global).2.1⟩

/-- C5 counterexample: the FIFO claim quantifies over every name on the
generic path, which includes non-AYT `global` events; buffering the 151
payloads `c5ds` (numbered 1..151) to `global` and popping `c5ds.length`
times does *not* return them in send order: the cap dropped the oldest
51, so the first pop already yields payload 52, not payload 1. -/
theorem generic_fifo_fails_at_global_151 :
    ¬ ((popN (bufferSame initialSession "global" c5ds) "global" c5ds.length).1 =
        c5ds.map some) := by
  intro hcl
  have h151 : c5ds.length = 151 := by
    unfold c5ds
    rw [List.length_map, List.length_range]
  have hl : bufGet (bufferSame initialSession "global" c5ds).buffer "global" =
      c5ds.reverse.take 100 := bufferSame_global_151 c5ds h151 c5ds_global
  have hgl : (bufGet (bufferSame initialSession "global" c5ds).buffer "global").getLast? =
      some (.ptuple [.pstr "g", .pint 52]) := by
    rw [hl]
    decide
  have hpop : (eventPop (bufferSame initialSession "global" c5ds) "global").1 =
      some (.ptuple [.pstr "g", .pint 52]) := by
    simp only [eventPop, hgl]
  rw [h151] at hcl
  have hstep : (popN (bufferSame initialSession "global" c5ds) "global" 151).1 =
      (eventPop (bufferSame initialSession "global" c5ds) "global").1 ::
      (popN (eventPop (bufferSame initialSession "global" c5ds) "global").2 "global" 150).1 := rfl
  have hL := congrArg List.head? hcl
  rw [hstep] at hL
  simp only [List.head?_cons, hpop] at hL
  have hR : (c5ds.map some).head? = some (some (.ptuple [.pstr "g", .pint 1])) := by
    decide
  rw [hR] at hL
  simp at hL

/-! ### C6: node-lock protocol -/

theorem nodeAcquireAux_some (reply : Nat → PyVal) :
    ∀ (k a n : Nat) (s : List (String × PyVal)),
      nodeAcquireAux reply (List.range' a k) = (some n, s) →
      a ≤ n ∧ n < a + k ∧ reply n = .pbool true ∧
      (∀ m, a ≤ m → m < n → reply m ≠ .pbool true) ∧
      s = (List.range' a (n + 1 - a)).map acquireEvent
  | 0, a, n, s => by
    intro h
    simp [nodeAcquireAux] at h
  | k + 1, a, n, s => by
    intro h
    rw [List.range'_succ] at h
    unfold nodeAcquireAux at h
    by_cases ha : reply a = .pbool true
    · rw [if_pos ha] at h
      obtain ⟨h1, h2⟩ := Prod.mk.injEq .. ▸ h
      injection h1 with h1
      subst h1
      refine ⟨le_refl a, by omega, ha, ?_, ?_⟩
      · intro m hm1 hm2
        omega
      · rw [← h2]
        have : a + 1 - a = 1 := by omega
        rw [this]
        rfl
    · rw [if_neg ha] at h
      obtain ⟨h1, h2⟩ := Prod.mk.injEq .. ▸ h
      obtain ⟨ih1, ih2, ih3, ih4, ih5⟩ :=
        nodeAcquireAux_some reply k (a + 1) n _ (by rw [← h1])
      refine ⟨by omega, by omega, ih3, ?_, ?_⟩
      · intro m hm1 hm2
        rcases Nat.eq_or_lt_of_le hm1 with hma | hma
        · rw [← hma]
          exact ha
        · exact ih4 m (by omega) hm2
      · rw [← h2, ih5]
        have hn : n + 1 - a = (n + 1 - (a + 1)) + 1 := by omega
        rw [hn, List.range'_succ]
        rfl

theorem nodeAcquireAux_none (reply : Nat → PyVal) :
    ∀ (k a : Nat),
      (∀ m, a ≤ m → m < a + k → reply m ≠ .pbool true) →
      nodeAcquireAux reply (List.range' a k) =
        (none, (List.range' a k).map acquireEvent) := by
  intro k
  induction k with
  | zero =>
    intro a _
    rfl
  | succ k ih =>
    intro a hm
    rw [List.range'_succ]
    unfold nodeAcquireAux
    rw [if_neg (hm a (le_refl a) (by omega))]
    rw [ih (a + 1) (fun m h1 h2 => hm m (by omega) (by omega))]
    rfl

/-- C6: the `node` property sends `lock-node/<n>` acquire events for
n = 1, 2, … in increasing order, claiming the first n whose reply is
`True`; every claimed node lies in [1, 63]; the node stays unset when
no reply over the whole range is `True`; and `close()` sends the
release event for exactly the claimed node. -/
theorem node_lock_protocol (reply : Nat → PyVal) :
    (∀ n, (nodeProperty reply).1 = some n →
      1 ≤ n ∧ n ≤ 63 ∧ reply n = .pbool true ∧
      (∀ m, 1 ≤ m → m < n → reply m ≠ .pbool true) ∧
      (nodeProperty reply).2 = (List.range' 1 n).map acquireEvent ∧
      closeSends (nodeProperty reply).1 = [releaseEvent n]) ∧
    ((∀ m, 1 ≤ m → m ≤ 63 → reply m ≠ .pbool true) →
      (nodeProperty reply).1 = none ∧ closeSends (nodeProperty reply).1 = []) := by
  constructor
  · intro n hn
    obtain ⟨h1, h2, h3, h4, h5⟩ := nodeAcquireAux_some reply 63 1 n
      (nodeProperty reply).2 (by rw [← hn]; rfl)
    refine ⟨h1, by omega, h3, h4, ?_, ?_⟩
    · have : n + 1 - 1 = n := by omega
      rw [← this]
      exact h5
    · rw [hn]
      rfl
  · intro hm
    have h := nodeAcquireAux_none reply 63 1 (fun m hm1 hm2 => hm m hm1 (by omega))
    constructor
    · show (nodeAcquireAux reply (List.range' 1 63)).1 = none
      rw [h]
    · show closeSends (nodeAcquireAux reply (List.range' 1 63)).1 = []
      rw [h]
      rfl

/-- Witness for C6: with an authority granting exactly node 3, the
property claims node 3 after acquires 1, 2, 3, and close releases 3. -/
theorem node_lock_protocol_witness :
    (nodeProperty c6reply).1 = some 3 ∧
    (1 ≤ 3 ∧ 3 ≤ 63 ∧ c6reply 3 = .pbool true ∧
      (∀ m, 1 ≤ m → m < 3 → c6reply m ≠ .pbool true) ∧
      (nodeProperty c6reply).2 = (List.range' 1 3).map acquireEvent ∧
      closeSends (nodeProperty c6reply).1 = [releaseEvent 3]) :=
  ⟨by decide, (node_lock_protocol c6reply).1 3 (by decide)⟩

/-! ### C7: ttyrec chunk format -/

theorem ratFloor_eq (q : ℚ) : Rat.floor q = ⌊q⌋ := rfl

theorem unpackLE32_packLE32 (v : Nat) (r : List Nat) (h : v < 4294967296) :
    unpackLE32 (packLE32 v ++ r) = some (v, r) := by
  show some (v % 256 + 256 * (v / 256 % 256) + 65536 * (v / 65536 % 256) +
    16777216 * (v / 16777216 % 256), r) = some (v, r)
  have hv : v % 256 + 256 * (v / 256 % 256) + 65536 * (v / 65536 % 256) +
      16777216 * (v / 16777216 % 256) = v := by omega
  rw [hv]

theorem ttyrecSec_toNat_lt (elapsed : ℚ) (h : elapsed < ((4294967296 : ℕ) : ℚ)) :
    (ttyrecSec elapsed).toNat < 4294967296 := by
  unfold ttyrecSec
  rw [ratFloor_eq]
  have h1 : ⌊elapsed⌋ < (4294967296 : ℤ) := by
    rw [Int.floor_lt]
    exact_mod_cast h
  omega

theorem ttyrecUsec_toNat_lt (elapsed : ℚ) :
    (ttyrecUsec elapsed).toNat < 4294967296 := by
  unfold ttyrecUsec ttyrecSec
  rw [ratFloor_eq, ratFloor_eq]
  have hfr : (elapsed - ((⌊elapsed⌋ : ℤ) : ℚ)) * 1000000 = Int.fract elapsed * 1000000 := by
    rw [Int.fract]
  rw [hfr]
  have h1 : ⌊Int.fract elapsed * 1000000⌋ < (1000000 : ℤ) := by
    rw [Int.floor_lt]
    have hf : Int.fract elapsed < 1 := Int.fract_lt_one elapsed
    have : Int.fract elapsed * 1000000 < 1 * 1000000 :=
      mul_lt_mul_of_pos_right hf (by norm_num)
    rw [one_mul] at this
    exact_mod_cast this
  omega

/-- C7: every recorded write appends exactly one chunk — elapsed whole
seconds, microseconds (fractional part times 1e6) and the UTF-8 byte
length, each a little-endian uint32, followed by the UTF-8 bytes — and
the file is flushed to the end of the data after the chunk; a chunk
reader recovers the fields and the trailing stream; writing "hi" at
1.5 s elapsed yields sec=1, usec=500000, len=2, bytes b"hi". -/
theorem ttyrec_chunk_format (st : TtyrecState) (elapsed : ℚ) (ucs : String)
    (rest : List Nat)
    (h0 : 0 ≤ elapsed) (hsec : elapsed < ((4294967296 : ℕ) : ℚ))
    (hlen : (utf8Bytes ucs).length < 4294967296) :
    (ttyrecWrite st elapsed ucs).data = st.data ++ chunkBytes elapsed ucs ∧
    (ttyrecWrite st elapsed ucs).flushed = (ttyrecWrite st elapsed ucs).data.length ∧
    parseChunk (chunkBytes elapsed ucs ++ rest) =
      some (((ttyrecSec elapsed).toNat, (ttyrecUsec elapsed).toNat),
        (utf8Bytes ucs, rest)) ∧
    ttyrecSec (Rat.divInt 3 2) = 1 ∧ ttyrecUsec (Rat.divInt 3 2) = 500000 ∧
    chunkBytes (Rat.divInt 3 2) "hi" =
      [1, 0, 0, 0, 32, 161, 7, 0, 2, 0, 0, 0, 104, 105] := by
  have hs3 : ttyrecSec (Rat.divInt 3 2) = 1 := by decide
  have hu3 : ttyrecUsec (Rat.divInt 3 2) = 500000 := by
    unfold ttyrecUsec ttyrecSec
    rw [ratFloor_eq, ratFloor_eq, Rat.divInt_eq_div]
    norm_num
  refine ⟨?_, rfl, ?_, hs3, hu3, ?_⟩
  · unfold ttyrecWrite chunkBytes
    simp [List.append_assoc]
  · unfold parseChunk chunkBytes
    rw [List.append_assoc, List.append_assoc, List.append_assoc]
    rw [unpackLE32_packLE32 _ _ (ttyrecSec_toNat_lt elapsed hsec)]
    simp only [Option.some_bind]
    rw [unpackLE32_packLE32 _ _ (ttyrecUsec_toNat_lt elapsed)]
    simp only [Option.some_bind]
    rw [unpackLE32_packLE32 _ _ hlen]
    simp only [Option.some_bind]
    rw [if_pos (by simp)]
    rw [List.take_left, List.drop_left]
  · unfold chunkBytes
    rw [hs3, hu3]
    decide

/-- Witness for C7 at `elapsed = 3/2`, text `"hi"`, empty trailing
stream. -/
theorem ttyrec_chunk_format_witness :
    ((0 : ℚ) ≤ Rat.divInt 3 2) ∧ (Rat.divInt 3 2 < ((4294967296 : ℕ) : ℚ)) ∧
    (utf8Bytes "hi").length < 4294967296 ∧
    parseChunk (chunkBytes (Rat.divInt 3 2) "hi" ++ []) =
      some (((ttyrecSec (Rat.divInt 3 2)).toNat, (ttyrecUsec (Rat.divInt 3 2)).toNat),
        (utf8Bytes "hi", [])) :=
  ⟨by decide, by decide, by decide,
   (ttyrec_chunk_format {} (Rat.divInt 3 2) "hi" []
     (by decide) (by decide) (by decide)).2.2.1⟩

/-! ### C8: window-size cursor trick -/

/-- C8: a reply matching the vt100 pattern `ESC[<row>;<col>R` sets
`rows = <row>` and `columns = <col>`, sets TERM to `vt100` only when
TERM was still `unknown`, and stops before the `sun` family is
consulted; when neither pattern matches, rows and columns default to
24 and 80; concretely, `ESC[24;80R` yields rows 24, columns 80 and
TERM `vt100` from `unknown` (but an already-detected TERM is kept). -/
theorem winsize_trick (term0 : String) (inpVT inpSun inpSun2 : String)
    (h w : List Char) :
    (searchPat matchVT100At inpVT.toList = some (h, w) →
      (winsizeFallback term0 inpVT inpSun).rows = digitsToNat h ∧
      (winsizeFallback term0 inpVT inpSun).columns = digitsToNat w ∧
      (winsizeFallback term0 inpVT inpSun).term =
        (if term0 = "unknown" then "vt100" else term0) ∧
      winsizeFallback term0 inpVT inpSun = winsizeFallback term0 inpVT inpSun2) ∧
    (searchPat matchVT100At inpVT.toList = none →
      searchPat matchSunAt inpSun.toList = none →
      (winsizeFallback term0 inpVT inpSun).rows = 24 ∧
      (winsizeFallback term0 inpVT inpSun).columns = 80 ∧
      (winsizeFallback term0 inpVT inpSun).term = term0) ∧
    searchPat matchVT100At ("\x1b[24;80R").toList =
      some ("24".toList, "80".toList) ∧
    (winsizeFallback "unknown" "\x1b[24;80R" inpSun).rows = 24 ∧
    (winsizeFallback "unknown" "\x1b[24;80R" inpSun).columns = 80 ∧
    (winsizeFallback "unknown" "\x1b[24;80R" inpSun).term = "vt100" ∧
    (winsizeFallback "ansi" "\x1b[24;80R" inpSun).term = "ansi" := by
  have hconc : searchPat matchVT100At ("\x1b[24;80R").toList =
      some ("24".toList, "80".toList) := by decide
  refine ⟨?_, ?_, hconc, ?_, ?_, ?_, ?_⟩
  · intro hm
    unfold winsizeFallback
    rw [hm]
    exact ⟨rfl, rfl, rfl, rfl⟩
  · intro hv hs
    unfold winsizeFallback
    rw [hv, hs]
    exact ⟨rfl, rfl, rfl⟩
  · unfold winsizeFallback
    rw [hconc]
    rfl
  · unfold winsizeFallback
    rw [hconc]
    rfl
  · unfold winsizeFallback
    rw [hconc]
    rfl
  · unfold winsizeFallback
    rw [hconc]
    rfl

/-- Witness for C8 at the concrete reply `ESC[24;80R`. -/
theorem winsize_trick_witness :
    searchPat matchVT100At ("\x1b[24;80R").toList =
      some ("24".toList, "80".toList) ∧
    ((winsizeFallback "unknown" "\x1b[24;80R" "").rows = digitsToNat "24".toList ∧
     (winsizeFallback "unknown" "\x1b[24;80R" "").columns = digitsToNat "80".toList ∧
     (winsizeFallback "unknown" "\x1b[24;80R" "").term =
       (if ("unknown" : String) = "unknown" then "vt100" else "unknown") ∧
     winsizeFallback "unknown" "\x1b[24;80R" "" =
       winsizeFallback "unknown" "\x1b[24;80R" "\x1b[8;30;90t") :=
  ⟨by decide,
   (winsize_trick "unknown" "\x1b[24;80R" "" "\x1b[8;30;90t"
     "24".toList "80".toList).1 (by decide)⟩

/-! ### C9, C10: the write path -/

theorem char_toNat_ofNat (n : Nat) (h : n < 256) : (Char.ofNat n).toNat = n := by
  have hv : n.isValidChar := Or.inl (by omega)
  unfold Char.ofNat
  rw [dif_pos hv]
  rfl

theorem cp437Glyph_mem (table : List Char) (c : Char) (htab : table.length ≤ 256)
    (hc : c ∈ table) (ht : c ∉ TRIM_CP437) :
    cp437Glyph table c = [Char.ofNat (table.indexOf c)] ∧
    isoByte (Char.ofNat (table.indexOf c)) = table.indexOf c := by
  have hidx : table.indexOf c < 256 :=
    lt_of_lt_of_le (List.indexOf_lt_length.2 hc) htab
  constructor
  · unfold cp437Glyph
    rw [if_pos ⟨hc, ht⟩]
  · unfold isoByte
    rw [char_toNat_ofNat _ hidx, if_pos (by omega)]

theorem cp437Glyph_trim (table : List Char) (c : Char) (ht : c ∈ TRIM_CP437) :
    cp437Glyph table c = [] := by
  have hbyte : isoByte c = 14 ∨ isoByte c = 15 := by
    rcases (show c = Char.ofNat 14 ∨ c = Char.ofNat 15 by
      simpa [TRIM_CP437] using ht) with rfl | rfl
    · left
      decide
    · right
      decide
  unfold cp437Glyph
  rw [if_neg (fun hx => hx.2 ht), if_pos hbyte]

theorem isoEncode_append (a b : List Char) :
    isoEncode (a ++ b) = isoEncode a ++ isoEncode b := List.map_append _ a b

theorem cp437Decode_append (table : List Char) (a b : List Nat) :
    cp437Decode table (a ++ b) = cp437Decode table a ++ cp437Decode table b :=
  List.filterMap_append a b _

/-- Decoding the cp437-mode byte stream of a table-only string through
the table recovers the string minus the trimmed control glyphs. -/
theorem cp437_decode_transcode (table : List Char) (htab : table.length ≤ 256) :
    ∀ s : List Char, (∀ c ∈ s, c ∈ table) →
      cp437Decode table (isoEncode (cp437Transcode table s)) =
        s.filter (fun c => decide (c ∉ TRIM_CP437))
  | [], _ => rfl
  | c :: tl, hs => by
    have hc : c ∈ table := hs c (by simp)
    have ih := cp437_decode_transcode table htab tl (fun d hd => hs d (by simp [hd]))
    have hsplit : cp437Transcode table (c :: tl) =
        cp437Glyph table c ++ cp437Transcode table tl := by
      unfold cp437Transcode
      simp
    by_cases ht : c ∈ TRIM_CP437
    · rw [hsplit, cp437Glyph_trim table c ht, List.nil_append, ih]
      rw [List.filter_cons]
      simp [ht]
    · obtain ⟨hg, hb⟩ := cp437Glyph_mem table c htab hc ht
      rw [hsplit, hg, isoEncode_append, cp437Decode_append]
      have hone : cp437Decode table (isoEncode [Char.ofNat (table.indexOf c)]) = [c] := by
        show cp437Decode table [isoByte (Char.ofNat (table.indexOf c))] = [c]
        rw [hb]
        unfold cp437Decode
        rw [List.filterMap_cons, List.indexOf_get? hc]
        rfl
      rw [hone, ih, List.filter_cons]
      simp [ht]

/-- C9: in `cp437` mode, every glyph of the table (other than the two
trimmed controls chr(14)/chr(15), which vanish) is emitted as the
single byte at its table index; hence encoding a table-only string and
decoding the bytes back through the table returns the string with
exactly those two glyphs removed. The final conjunct ties this to
`Session.write`: in cp437 mode the transcoded text is what reaches the
terminal stream, marked `iso8859-1`. -/
theorem cp437_write_roundtrip (table : List Char) (s : List Char) (c : Char)
    (st : WState) (elapsed : ℚ)
    (htab : table.length ≤ 256) (hs : ∀ d ∈ s, d ∈ table) (hc : c ∈ table) :
    (c ∉ TRIM_CP437 → isoEncode (cp437Glyph table c) = [table.indexOf c]) ∧
    (c ∈ TRIM_CP437 → cp437Glyph table c = []) ∧
    cp437Decode table (isoEncode (cp437Transcode table s)) =
      s.filter (fun d => decide (d ∉ TRIM_CP437)) ∧
    (s ≠ [] → st.encoding = "cp437" → st.recordTty = false →
      (sessionWrite table st elapsed s).streamOut =
        st.streamOut ++ [(cp437Transcode table s, "iso8859-1")]) := by
  refine ⟨?_, cp437Glyph_trim table c, cp437_decode_transcode table htab s hs, ?_⟩
  · intro ht
    obtain ⟨hg, hb⟩ := cp437Glyph_mem table c htab hc ht
    rw [hg]
    show [isoByte (Char.ofNat (table.indexOf c))] = [table.indexOf c]
    rw [hb]
  · intro hne henc hrec
    unfold sessionWrite
    rw [if_neg (by simpa using hne), if_pos henc]
    rw [if_neg (by simp [hrec])]

/-- Witness for C9 over a three-glyph table containing chr(14). -/
theorem cp437_write_roundtrip_witness :
    ((['x', Char.ofNat 14, 'y'] : List Char).length ≤ 256) ∧
    (∀ d ∈ (['y', Char.ofNat 14, 'x'] : List Char), d ∈ (['x', Char.ofNat 14, 'y'] : List Char)) ∧
    Char.ofNat 14 ∈ (['x', Char.ofNat 14, 'y'] : List Char) ∧
    cp437Decode ['x', Char.ofNat 14, 'y']
        (isoEncode (cp437Transcode ['x', Char.ofNat 14, 'y'] ['y', Char.ofNat 14, 'x'])) =
      (['y', Char.ofNat 14, 'x'] : List Char).filter (fun d => decide (d ∉ TRIM_CP437)) :=
  ⟨by decide, by decide, by decide,
   (cp437_write_roundtrip ['x', Char.ofNat 14, 'y'] ['y', Char.ofNat 14, 'x']
     (Char.ofNat 14) {} 0 (by decide) (by decide) (by decide)).2.2.1⟩

/-- C10: `write(u'')` is a complete no-op — the `0 == len(ucs)` guard
returns before the stream write, before any recording is started (even
with `record_tty` enabled and no recorder open), and before any state
change. -/
theorem write_empty_noop (table : List Char) (st : WState) (elapsed : ℚ) :
    sessionWrite table st elapsed [] = st := rfl

/-- C5 (amended): for every event name taking the generic buffering
path, buffering payloads `d1 … dn` and popping `n` times returns them
oldest-first — provided, when the name is `global`, that `n ≤ 150` so
the cap does not discard entries. -/
theorem generic_path_fifo (name : String) (ds : List PyVal)
    (hgen : ∀ d ∈ ds, takesGenericPath initialSession name d = true)
    (hglob : name = "global" → ds.length ≤ 150) :
    (popN (bufferSame initialSession name ds) name ds.length).1 = ds.map some := by
  obtain ⟨b2, e1, e2⟩ := bufferSame_generic name ds initialSession hgen
    (by
      intro hg
      have h0 : bufGet initialSession.buffer name = [] := rfl
      rw [h0]
      simpa using hglob hg)
  rw [e1]
  have hb : bufGet ({initialSession with buffer := b2} : SessState).buffer name = ds.reverse := by
    show bufGet b2 name = ds.reverse
    rw [e2]
    have h0 : bufGet initialSession.buffer name = [] := rfl
    rw [h0]
    simp
  have hlen : (bufGet ({initialSession with buffer := b2} : SessState).buffer name).length = ds.length := by
    rw [hb]
    simp
  have hdrain := popN_drain name ds.length {initialSession with buffer := b2} hlen
  rw [hdrain, hb]
  simp

/-- Witness for C5 at a concrete name and three payloads. -/
theorem generic_path_fifo_witness :
    (∀ d ∈ [PyVal.pint 1, PyVal.pint 2, PyVal.pint 3],
      takesGenericPath initialSession "evt" d = true) ∧
    ("evt" = "global" → ([PyVal.pint 1, PyVal.pint 2, PyVal.pint 3] : List PyVal).length ≤ 150) ∧
    (popN (bufferSame initialSession "evt" [PyVal.pint 1, PyVal.pint 2, PyVal.pint 3]) "evt" 3).1 =
      [some (PyVal.pint 1), some (PyVal.pint 2), some (PyVal.pint 3)] :=
  ⟨by decide, by decide,
   generic_path_fifo "evt" [PyVal.pint 1, PyVal.pint 2, PyVal.pint 3] (by decide) (by decide)⟩

end X84
